import Mathlib

/-!
Verification development for the ALNSv2 VRPLDTT solver.

Shallow embedding conventions:
  * C++ `double` values are modelled as exact rationals (`ℚ`); all claims
    settled here concern control flow and exact algebraic structure, not
    floating-point rounding.
  * C++ vectors are Lean lists; reads use `List.getD` with default values
    where the C++ code assumes in-bounds indices, and writes use `List.set`.
  * `throw InfeasibilityException` is modelled by the `Except.error` arm,
    carrying the (partially updated) solution object, since the C++ object
    remains observable after the throw.
  * The process-wide KISS random stream is modelled by oracle streams
    (`ℕ → ℤ` for integer draws, `ℕ → ℚ` for the perturbation factors
    produced by `std::pow(UNI, rnd_factor)`); every theorem quantifies over
    the oracle, so it holds for every possible random sequence.
-/

/-- The C++ conversion from a floating value to `int` truncates toward zero. -/
def cppIntCast (q : ℚ) : ℤ := if 0 ≤ q then ⌊q⌋ else ⌈q⌉

/-- The C++ `int` division truncates toward zero (sign times quotient of magnitudes). -/
def cppIntDiv (a b : ℤ) : ℤ := a.sign * b.sign * ((a.natAbs / b.natAbs : ℕ) : ℤ)

/-- The exact value of `std::numeric_limits<double>::max()`. -/
def doubleMax : ℚ := (((2 ^ 53 - 1) * 2 ^ 971 : ℕ) : ℚ)

/-- Read entry `(i, j)` of an integer matrix, 0 outside the stored range. -/
def mat_at (m : List (List ℤ)) (i j : ℕ) : ℤ := (m.getD i []).getD j 0

/-- Read entry `(i, j)` of a rational matrix, 0 outside the stored range. -/
def matq_at (m : List (List ℚ)) (i j : ℕ) : ℚ := (m.getD i []).getD j 0

/-- Read `time_cube[b][i][j]`. A negative bucket index is undefined behaviour
in the C++ code; we clamp it to 0 via `Int.toNat`. -/
def cube_at (t : List (List (List ℚ))) (b : ℤ) (i j : ℕ) : ℚ :=
  matq_at (t.getD b.toNat []) i j

/-- Embedding of `std::vector::insert(begin() + n, x)`. Positions beyond the
length are undefined behaviour in C++ (never exercised by the callers); the
total model appends in that case. -/
def insert_at {α : Type} : List α → ℕ → α → List α
  | l, 0, x => x :: l
  | [], _ + 1, x => [x]
  | a :: l, n + 1, x => a :: insert_at l n x

/-- Embedding of `tools::remove_at` (erase the element at position n). -/
def remove_at {α : Type} : List α → ℕ → List α
  | [], _ => []
  | _ :: l, 0 => l
  | a :: l, n + 1 => a :: remove_at l n

/-- The immutable problem instance (`ALNSData`), restricted to the fields the
evaluated routines read. -/
structure ALNSData where
  nr_vehicles : ℕ
  nr_nodes : ℕ
  nr_customer : ℕ
  demand : List ℚ
  service_times : List ℚ
  start_window : List ℚ
  end_window : List ℚ
  vehicle_cap : ℕ
  add_pseudo_capacity : ℚ
  load_bucket_size : ℚ
  time_cube : List (List (List ℚ))
deriving DecidableEq

/-- The mutable `Solution` object: primary routing state plus all cached KPIs. -/
structure Solution where
  solution_representation : List (List ℕ)
  route_chromosome : List ℕ
  loads : List ℚ
  load_levels : List ℤ
  arrival_times : List ℚ
  departure_times : List ℚ
  driving_time : ℚ
  capa_error : ℚ
  frame_error : ℚ
  is_feasible : Bool
  solution_quality : ℚ
  start_times : List ℚ
  route_driving_times : List ℚ
  route_capa_errors : List ℚ
  route_frame_errors : List ℚ
  route_qualities : List ℚ
deriving DecidableEq

/-- Embedding of `get_load_bucket` (evaluate.cpp): the bucket index of a
cumulated demand, `int((customer_demand - 0.3) / load_bucket_size)`. -/
def get_load_bucket (customer_demand : ℚ) (load_bucket_size : ℚ) : ℤ :=
  cppIntCast ((customer_demand - 3/10) / load_bucket_size)

/-- Descending-position loop of `route_evaluate::update_load_levels`:
walk the given positions (highest first), accumulating the load and writing
`loads` and `load_levels` for each visited customer. -/
def update_load_levels_go (route : List ℕ) (demand : List ℚ) (load_bucket_size : ℚ) :
    List ℕ → ℚ → List ℚ × List ℤ → List ℚ × List ℤ
  | [], _, st => st
  | pos :: rest, load, (loads, lls) =>
      let customer_id := route.getD pos 0
      let load' := load + demand.getD customer_id 0
      update_load_levels_go route demand load_bucket_size rest load'
        (loads.set customer_id load', lls.set customer_id (get_load_bucket load' load_bucket_size))

/-- Embedding of `route_evaluate::update_load_levels`. The C++ parameter
`end_pos` is `unsigned`, but callers pass a signed position that may be `-1`
(insertion at position 0 reverted); the wrap-around makes both the
initial-load check and the descending `int` loop do nothing, modelled here by
the `end_pos < 0` early return. -/
def update_load_levels (loads : List ℚ) (load_levels : List ℤ) (route : List ℕ)
    (end_pos : ℤ) (demand : List ℚ) (load_bucket_size : ℚ) : List ℚ × List ℤ :=
  if route.isEmpty then (loads, load_levels)
  else if end_pos < 0 then (loads, load_levels)
  else
    let ep := end_pos.toNat
    let init : ℚ := if ep < route.length - 1 then loads.getD (route.getD (ep + 1) 0) 0 else 0
    update_load_levels_go route demand load_bucket_size
      ((List.range (ep + 1)).reverse) init (loads, load_levels)

/-- Embedding of `route_evaluate::get_starting_time`: the vehicle departs as
late as possible so the first customer is reached at the opening of its
window (never before time 0). -/
def get_starting_time (route : List ℕ) (load_levels : List ℤ)
    (start_window : List ℚ) (time_cube : List (List (List ℚ))) : ℚ :=
  match route with
  | [] => 0
  | first :: _ =>
      max 0 (start_window.getD first 0 - cube_at time_cube (load_levels.getD first 0) 0 (first + 1))

/-- Forward loop of `route_evaluate::update_visit_times`: walk the route,
updating arrival and departure times and accumulating the driving time; at the
end add the return-to-depot arc at load bucket 0. Returns
`(route_driving_time, arrival_times, departure_times)`. -/
def update_visit_times_go (load_levels : List ℤ) (start_window : List ℚ)
    (time_cube : List (List (List ℚ))) (service_times : List ℚ) :
    List ℕ → ℕ → ℚ → ℚ → List ℚ → List ℚ → ℚ × List ℚ × List ℚ
  | [], prev_node_id, _, rdt, arr, dep => (rdt + cube_at time_cube 0 prev_node_id 0, arr, dep)
  | customer_id :: rest, prev_node_id, current_time, rdt, arr, dep =>
      let node_id := customer_id + 1
      let ctoctime := cube_at time_cube (load_levels.getD customer_id 0) prev_node_id node_id
      let t1 := max (current_time + ctoctime) (start_window.getD customer_id 0)
      let t2 := t1 + service_times.getD customer_id 0
      update_visit_times_go load_levels start_window time_cube service_times rest
        node_id t2 (rdt + ctoctime) (arr.set customer_id t1) (dep.set customer_id t2)

/-- Embedding of `route_evaluate::update_visit_times`. -/
def update_visit_times (route : List ℕ) (load_levels : List ℤ) (start_window : List ℚ)
    (time_cube : List (List (List ℚ))) (service_times : List ℚ)
    (starting_time : ℚ) (arr dep : List ℚ) : ℚ × List ℚ × List ℚ :=
  update_visit_times_go load_levels start_window time_cube service_times route 0 starting_time 0 arr dep

/-- Embedding of `route_evaluate::get_capa_error`: positive part of the first
customer's cumulated load over the vehicle capacity; 0 for an empty route. -/
def get_capa_error (route : List ℕ) (vehicle_capacity : ℕ) (loads : List ℚ) : ℚ :=
  match route with
  | [] => 0
  | customer_id :: _ =>
      let capacity_difference := loads.getD customer_id 0 - (vehicle_capacity : ℚ)
      if capacity_difference > 0 then capacity_difference else 0

/-- Embedding of `route_evaluate::get_frame_error`: total lateness of the
route's arrivals against the end windows. -/
def get_frame_error (route : List ℕ) (end_window : List ℚ) (arrival_times : List ℚ) : ℚ :=
  route.foldl
    (fun acc customer_id =>
      let late_diff := arrival_times.getD customer_id 0 - end_window.getD customer_id 0
      if late_diff > 0 then acc + late_diff else acc) 0

/-- Embedding of `route_evaluate::get_quality`. -/
def get_quality (time capa_error frame_error capa_error_weight frame_error_weight : ℚ) : ℚ :=
  time + capa_error_weight * capa_error + frame_error * frame_error_weight

/-- Embedding of `route_evaluate::update_route_chromosome` with the default
`start_pos = 0`. -/
def update_route_chromosome (route_chromosome : List ℕ) (route : List ℕ) (route_id : ℕ) : List ℕ :=
  route.foldl (fun ch customer_id => ch.set customer_id route_id) route_chromosome

/-- Embedding of `Solution::set_is_feasible`'s condition on the two errors. -/
def set_is_feasible (capa_error frame_error : ℚ) : Bool :=
  if capa_error > 0 ∨ frame_error > 0 then false else true

/-- Embedding of `Solution::evaluate_change` (solution.cpp): incremental
re-evaluation of route `route_id` after a change at `ins_pos`. The capacity
side (loads, load levels, aggregate `capa_error`) is updated first; if the
recomputed route capacity error reaches `add_pseudo_capacity` the function
throws, leaving the time-related fields stale (`Except.error` carries the
partially updated object). Otherwise all time KPIs and route caches are
rebuilt and the feasibility flag refreshed. -/
def evaluate_change (data : ALNSData) (route_id : ℕ) (ins_pos : ℤ)
    (capa_error_weight frame_error_weight : ℚ) (s : Solution) : Except Solution Solution :=
  let route := s.solution_representation.getD route_id []
  let p := update_load_levels s.loads s.load_levels route ins_pos data.demand data.load_bucket_size
  let route_capa_error := get_capa_error route data.vehicle_cap p.1
  let s1 : Solution :=
    { s with loads := p.1, load_levels := p.2,
             capa_error := s.capa_error - s.route_capa_errors.getD route_id 0 + route_capa_error }
  if data.add_pseudo_capacity ≤ route_capa_error then
    .error s1
  else
    let start_time := get_starting_time route p.2 data.start_window data.time_cube
    let t := update_visit_times route p.2 data.start_window data.time_cube data.service_times
      start_time s1.arrival_times s1.departure_times
    let route_frame_error := get_frame_error route data.end_window t.2.1
    let route_quality :=
      get_quality t.1 route_capa_error route_frame_error capa_error_weight frame_error_weight
    let new_driving_time := s1.driving_time - s1.route_driving_times.getD route_id 0 + t.1
    let new_frame_error := s1.frame_error - s1.route_frame_errors.getD route_id 0 + route_frame_error
    let new_quality := s1.solution_quality - s1.route_qualities.getD route_id 0 + route_quality
    .ok { s1 with
      arrival_times := t.2.1,
      departure_times := t.2.2,
      driving_time := new_driving_time,
      frame_error := new_frame_error,
      solution_quality := new_quality,
      route_driving_times := s1.route_driving_times.set route_id t.1,
      route_capa_errors := s1.route_capa_errors.set route_id route_capa_error,
      route_frame_errors := s1.route_frame_errors.set route_id route_frame_error,
      route_qualities := s1.route_qualities.set route_id route_quality,
      is_feasible := set_is_feasible s1.capa_error new_frame_error }

/-- Route loop of `Solution::set_chromosomes`. -/
def set_chromosomes_go : List (List ℕ) → ℕ → List ℕ → List ℕ
  | [], _, ch => ch
  | route :: rest, route_id, ch =>
      set_chromosomes_go rest (route_id + 1) (update_route_chromosome ch route route_id)

/-- Embedding of `Solution::set_chromosomes`: rebuild the customer-to-route
index from a fresh zero vector of length `nr_customer`. -/
def set_chromosomes (nr_customer : ℕ) (rep : List (List ℕ)) : List ℕ :=
  set_chromosomes_go rep 0 (List.replicate nr_customer 0)

/-- Embedding of `Solution::set_load_levels`: recompute all loads and load
levels from fresh zero vectors, one route at a time. For an empty route the
C++ call passes `route.size() - 1 = -1` after the unsigned wrap, which
`update_load_levels` turns into a no-op. -/
def set_load_levels (data : ALNSData) (rep : List (List ℕ)) : List ℚ × List ℤ :=
  rep.foldl
    (fun p route =>
      update_load_levels p.1 p.2 route ((route.length : ℤ) - 1) data.demand data.load_bucket_size)
    (List.replicate data.nr_customer 0, List.replicate data.nr_customer 0)

/-- Route loop of `Solution::set_solution_time`. Returns the total driving
time, the start-time and route-driving-time vectors (in route order), and the
updated arrival and departure vectors. -/
def set_solution_time_go (data : ALNSData) (load_levels : List ℤ) :
    List (List ℕ) → List ℚ → List ℚ → ℚ × List ℚ × List ℚ × List ℚ × List ℚ
  | [], arr, dep => (0, [], [], arr, dep)
  | route :: rest, arr, dep =>
      let start_time := get_starting_time route load_levels data.start_window data.time_cube
      let t := update_visit_times route load_levels data.start_window data.time_cube
        data.service_times start_time arr dep
      let r := set_solution_time_go data load_levels rest t.2.1 t.2.2
      (t.1 + r.1, start_time :: r.2.1, t.1 :: r.2.2.1, r.2.2.2)

/-- Embedding of `Solution::set_solution_time`, starting from fresh zero
arrival and departure vectors of length `nr_customer`. -/
def set_solution_time (data : ALNSData) (load_levels : List ℤ) (rep : List (List ℕ)) :
    ℚ × List ℚ × List ℚ × List ℚ × List ℚ :=
  set_solution_time_go data load_levels rep
    (List.replicate data.nr_customer 0) (List.replicate data.nr_customer 0)

/-- Embedding of `Solution::set_capa_error`: one capacity error per route of
the representation; the C++ vector is allocated with length `nr_vehicles`, so
missing trailing routes keep the default 0. -/
def set_capa_error (data : ALNSData) (rep : List (List ℕ)) (loads : List ℚ) : List ℚ :=
  rep.map (fun route => get_capa_error route data.vehicle_cap loads)
    ++ List.replicate (data.nr_vehicles - rep.length) 0

/-- Embedding of `Solution::set_frame_error`'s per-route vector. -/
def set_frame_error (data : ALNSData) (rep : List (List ℕ)) (arrival_times : List ℚ) : List ℚ :=
  rep.map (fun route => get_frame_error route data.end_window arrival_times)

/-- Embedding of `Solution::set_quality`: per-route qualities for all
`nr_vehicles` route ids from the cached route KPI vectors. -/
def set_quality (data : ALNSData) (route_driving_times route_capa_errors route_frame_errors : List ℚ)
    (capa_error_weight frame_error_weight : ℚ) : List ℚ :=
  (List.range data.nr_vehicles).map
    (fun route_id =>
      get_quality (route_driving_times.getD route_id 0) (route_capa_errors.getD route_id 0)
        (route_frame_errors.getD route_id 0) capa_error_weight frame_error_weight)

/-- Embedding of `Solution::evaluate_solution`: full recomputation of every
cached field from the current representation. -/
def evaluate_solution (data : ALNSData) (capa_error_weight frame_error_weight : ℚ)
    (s : Solution) : Solution :=
  let rep := s.solution_representation
  let chrom := set_chromosomes data.nr_customer rep
  let p := set_load_levels data rep
  let t := set_solution_time data p.2 rep
  let route_capa_errors := set_capa_error data rep p.1
  let capa_error := (rep.map (fun route => get_capa_error route data.vehicle_cap p.1)).sum
  let route_frame_errors := set_frame_error data rep t.2.2.2.1
  let frame_error := route_frame_errors.sum
  let route_qualities := set_quality data t.2.2.1 route_capa_errors route_frame_errors
    capa_error_weight frame_error_weight
  { s with
    route_chromosome := chrom,
    loads := p.1,
    load_levels := p.2,
    driving_time := t.1,
    start_times := t.2.1,
    route_driving_times := t.2.2.1,
    arrival_times := t.2.2.2.1,
    departure_times := t.2.2.2.2,
    capa_error := capa_error,
    route_capa_errors := route_capa_errors,
    frame_error := frame_error,
    route_frame_errors := route_frame_errors,
    solution_quality := route_qualities.sum,
    route_qualities := route_qualities,
    is_feasible := set_is_feasible capa_error frame_error }

/-- Arc loop of `Solution::get_diversity` for one non-empty route, carrying
the previous node id. Each term is `1 - usage / new_iter` where the division
is C++ `int` division (both operands are `int`). -/
def get_diversity_go (usage : List (List ℤ)) (new_iter : ℤ) :
    List ℕ → ℕ → ℚ → ℚ
  | [], prev_node_id, acc => acc + (1 - (cppIntDiv (mat_at usage prev_node_id 0) new_iter : ℚ))
  | customer_id :: rest, prev_node_id, acc =>
      get_diversity_go usage new_iter rest (customer_id + 1)
        (acc + (1 - (cppIntDiv (mat_at usage prev_node_id (customer_id + 1)) new_iter : ℚ)))

/-- Embedding of `Solution::get_diversity`: sum the arc terms of every
non-empty route (each non-empty route also bumps the normaliser by one) and
divide by `nr_customer` plus the number of non-empty routes. -/
def get_diversity (nr_customer : ℕ) (usage : List (List ℤ)) (iteration : ℕ)
    (rep : List (List ℕ)) : ℚ :=
  let new_iter : ℤ := (iteration : ℤ) + 1
  let p := rep.foldl
    (fun (p : ℕ × ℚ) route =>
      if route.length > 0 then (p.1 + 1, get_diversity_go usage new_iter route 0 p.2) else p)
    (nr_customer, 0)
  p.2 / (p.1 : ℚ)

/-- Embedding of `evaluate_insertion_position` (operator.cpp): insert the
customer at `ins_pos` of route `route_id`, re-evaluate, read the quality,
then remove the probe again and re-evaluate at `ins_pos - 1`. If the first
re-evaluation throws, the probe is removed, the route re-evaluated, and the
exception rethrown. (C++ leaves the operand order of the later quality read
unspecified; the probe is evaluated first here.) -/
def evaluate_insertion_position (data : ALNSData) (capa_error_weight frame_error_weight : ℚ)
    (route_id customer_id ins_pos : ℕ) (s : Solution) : Except Solution (ℚ × Solution) :=
  let route := s.solution_representation.getD route_id []
  let s0 : Solution :=
    { s with
      solution_representation :=
        s.solution_representation.set route_id (insert_at route ins_pos customer_id),
      route_chromosome := s.route_chromosome.set customer_id route_id }
  match evaluate_change data route_id (ins_pos : ℤ) capa_error_weight frame_error_weight s0 with
  | .error s1 =>
      let s2 : Solution :=
        { s1 with
          solution_representation :=
            s1.solution_representation.set route_id
              (remove_at (s1.solution_representation.getD route_id []) ins_pos) }
      match evaluate_change data route_id ((ins_pos : ℤ) - 1) capa_error_weight frame_error_weight s2 with
      | .error s3 => .error s3
      | .ok s3 => .error s3
  | .ok s1 =>
      let tmp_cost := s1.solution_quality
      let s2 : Solution :=
        { s1 with
          solution_representation :=
            s1.solution_representation.set route_id
              (remove_at (s1.solution_representation.getD route_id []) ins_pos) }
      match evaluate_change data route_id ((ins_pos : ℤ) - 1) capa_error_weight frame_error_weight s2 with
      | .error s3 => .error s3
      | .ok s3 => .ok (tmp_cost, s3)

/-- Position loop of `get_best_insertion` for one route: probe every position
in order; on `Infeasibility` stop immediately (the C++ catch breaks out of the
position loop), otherwise track the cheapest insertion found so far. -/
def gbi_route (data : ALNSData) (capa_error_weight frame_error_weight : ℚ)
    (customer_id route_id : ℕ) :
    List ℕ → Solution → ℚ × ℕ × ℕ → Solution × (ℚ × ℕ × ℕ)
  | [], s, best => (s, best)
  | pos :: rest, s, best =>
      match evaluate_insertion_position data capa_error_weight frame_error_weight
          route_id customer_id pos s with
      | .error s' => (s', best)
      | .ok (q, s') =>
          let tmp_cost := q - s'.solution_quality
          if best.1 > tmp_cost then
            gbi_route data capa_error_weight frame_error_weight customer_id route_id rest s'
              (tmp_cost, route_id, pos)
          else
            gbi_route data capa_error_weight frame_error_weight customer_id route_id rest s' best

/-- Route loop of `get_best_insertion`: probe positions `0 .. route.size()`
of each route id in turn. -/
def gbi_routes (data : ALNSData) (capa_error_weight frame_error_weight : ℚ) (customer_id : ℕ) :
    List ℕ → Solution → ℚ × ℕ × ℕ → Solution × (ℚ × ℕ × ℕ)
  | [], s, best => (s, best)
  | route_id :: rest, s, best =>
      let route := s.solution_representation.getD route_id []
      let r := gbi_route data capa_error_weight frame_error_weight customer_id route_id
        (List.range (route.length + 1)) s best
      gbi_routes data capa_error_weight frame_error_weight customer_id rest r.1 r.2

/-- Embedding of `get_best_insertion` (operator.cpp): scan one route when
`route_id ≥ 0`, all routes otherwise, starting from the sentinel best cost
`std::numeric_limits<double>::max()`. -/
def get_best_insertion (data : ALNSData) (capa_error_weight frame_error_weight : ℚ)
    (customer_id : ℕ) (route_id : ℤ) (s : Solution) : Solution × (ℚ × ℕ × ℕ) :=
  let rids :=
    if 0 ≤ route_id then [route_id.toNat]
    else List.range s.solution_representation.length
  gbi_routes data capa_error_weight frame_error_weight customer_id rids s (doubleMax, 0, 0)

/-- Embedding of `evaluate_removal_position` (operator.cpp): remove the
customer at `rem_pos`, re-evaluate at `rem_pos - 1`, read the quality, then
re-insert and re-evaluate at `rem_pos`. Both re-evaluations may throw, with
no catch in the function. -/
def evaluate_removal_position (data : ALNSData) (capa_error_weight frame_error_weight : ℚ)
    (route_id rem_pos : ℕ) (s : Solution) : Except Solution (ℚ × Solution) :=
  let route := s.solution_representation.getD route_id []
  let customer_id := route.getD rem_pos 0
  let s1 : Solution :=
    { s with solution_representation :=
        s.solution_representation.set route_id (remove_at route rem_pos) }
  match evaluate_change data route_id ((rem_pos : ℤ) - 1) capa_error_weight frame_error_weight s1 with
  | .error e => .error e
  | .ok s2 =>
      let tmp_cost := s2.solution_quality
      let s3 : Solution :=
        { s2 with
          solution_representation :=
            s2.solution_representation.set route_id
              (insert_at (s2.solution_representation.getD route_id []) rem_pos customer_id),
          route_chromosome := s2.route_chromosome.set customer_id route_id }
      match evaluate_change data route_id (rem_pos : ℤ) capa_error_weight frame_error_weight s3 with
      | .error e => .error e
      | .ok s4 => .ok (tmp_cost, s4)

/-- Customer loop of `RandomDestroyOperator::operator()` for one route: each
customer draws `tools::rand_number(nr_customer, 0)` (the oracle value at the
running index) and is kept when the draw exceeds `mean_removal`, removed
otherwise. Returns (kept route, removed customers, next oracle index). -/
def random_destroy_route (mean_removal : ℚ) (rng : ℕ → ℤ) :
    List ℕ → ℕ → List ℕ × List ℕ × ℕ
  | [], k => ([], [], k)
  | customer_id :: rest, k =>
      let rnd_int := rng k
      let r := random_destroy_route mean_removal rng rest (k + 1)
      if (rnd_int : ℚ) > mean_removal then (customer_id :: r.1, r.2.1, r.2.2)
      else (r.1, customer_id :: r.2.1, r.2.2)

/-- Route loop of `RandomDestroyOperator::operator()`. -/
def random_destroy_rep (mean_removal : ℚ) (rng : ℕ → ℤ) :
    List (List ℕ) → ℕ → List (List ℕ) × List ℕ × ℕ
  | [], k => ([], [], k)
  | route :: rest, k =>
      let a := random_destroy_route mean_removal rng route k
      let b := random_destroy_rep mean_removal rng rest a.2.2
      (a.1 :: b.1, a.2.1 ++ b.2.1, b.2.2)

/-- Embedding of `RandomDestroyOperator::operator()`: filter every route by
the random draws, install the destroyed representation and fully re-evaluate.
Returns (removed customers, new solution, next oracle index). -/
def random_destroy (data : ALNSData) (capa_error_weight frame_error_weight mean_removal : ℚ)
    (rng : ℕ → ℤ) (k : ℕ) (s : Solution) : List ℕ × Solution × ℕ :=
  let r := random_destroy_rep mean_removal rng s.solution_representation k
  (r.2.1,
   evaluate_solution data capa_error_weight frame_error_weight
     { s with solution_representation := r.1 },
   r.2.2)

/-- Embedding of `BasicGreedyInsertionOperator::operator()`: insert the
removed customers in list order, each at its best global position, and
re-evaluate after each insertion. The final `evaluate_change` call is not
guarded by a catch in the C++ code, so its exception propagates. -/
def basic_greedy_insertion (data : ALNSData) (capa_error_weight frame_error_weight : ℚ) :
    List ℕ → Solution → Except Solution Solution
  | [], s => .ok s
  | customer_id :: rest, s =>
      let r := get_best_insertion data capa_error_weight frame_error_weight customer_id (-1) s
      let s1 := r.1
      let best_route_id := r.2.2.1
      let best_route_pos := r.2.2.2
      let route := s1.solution_representation.getD best_route_id []
      let s2 : Solution :=
        { s1 with
          solution_representation :=
            s1.solution_representation.set best_route_id
              (insert_at route best_route_pos customer_id),
          route_chromosome := s1.route_chromosome.set customer_id best_route_id }
      match evaluate_change data best_route_id (best_route_pos : ℤ)
          capa_error_weight frame_error_weight s2 with
      | .error e => .error e
      | .ok s3 => basic_greedy_insertion data capa_error_weight frame_error_weight rest s3

/-- Write entry `(i, j)` of a matrix stored as a list of rows. -/
def set_mat {α : Type} (m : List (List α)) (i j : ℕ) (v : α) : List (List α) :=
  m.set i ((m.getD i []).set j v)

/-- Scan state of `WorstRemovalDestroyOperator::operator()` phase 1: the
solution, the `best_removals` matrix, the running global best (value,
candidate position, route id, removal position) and the oracle index. -/
structure WRScanState where
  s : Solution
  best_removals : List (List (ℚ × ℕ))
  overall_max_diff : ℚ
  best_customer_id_pos : ℕ
  best_route_id : ℕ
  best_rem_pos : ℕ
  k : ℕ

/-- Position loop of worst-removal phase 1 for one (candidate, route) pair:
probe every removal position, perturb the gain by the oracle factor, track the
per-pair maximum in `best_removals` and the global best. Probing exceptions
are not caught in the C++ code and propagate. -/
def wr_pos_loop (data : ALNSData) (capa_error_weight frame_error_weight : ℚ) (u : ℕ → ℚ)
    (customer_id_pos route_id : ℕ) :
    List ℕ → ℚ → WRScanState → Except Solution (ℚ × WRScanState)
  | [], maxd, st => .ok (maxd, st)
  | pos :: rest, maxd, st =>
      match evaluate_removal_position data capa_error_weight frame_error_weight
          route_id pos st.s with
      | .error e => .error e
      | .ok (v, s') =>
          let tmp_cost := (s'.solution_quality - v) * u st.k
          let st1 : WRScanState := { st with s := s', k := st.k + 1 }
          if maxd < tmp_cost then
            let st2 : WRScanState :=
              { st1 with best_removals :=
                  set_mat st1.best_removals customer_id_pos route_id (tmp_cost, pos) }
            if st2.overall_max_diff < tmp_cost then
              wr_pos_loop data capa_error_weight frame_error_weight u customer_id_pos route_id
                rest tmp_cost
                { st2 with overall_max_diff := tmp_cost,
                           best_customer_id_pos := customer_id_pos,
                           best_route_id := route_id, best_rem_pos := pos }
            else
              wr_pos_loop data capa_error_weight frame_error_weight u customer_id_pos route_id
                rest tmp_cost st2
          else
            wr_pos_loop data capa_error_weight frame_error_weight u customer_id_pos route_id
              rest maxd st1

/-- Route loop of worst-removal phase 1. -/
def wr_rid_loop (data : ALNSData) (capa_error_weight frame_error_weight : ℚ) (u : ℕ → ℚ)
    (customer_id_pos : ℕ) :
    List ℕ → WRScanState → Except Solution WRScanState
  | [], st => .ok st
  | route_id :: rest, st =>
      let route := st.s.solution_representation.getD route_id []
      match wr_pos_loop data capa_error_weight frame_error_weight u customer_id_pos route_id
          (List.range route.length) (-doubleMax) st with
      | .error e => .error e
      | .ok (_, st') =>
          wr_rid_loop data capa_error_weight frame_error_weight u customer_id_pos rest st'

/-- Candidate loop of worst-removal phase 1. -/
def wr_cid_loop (data : ALNSData) (capa_error_weight frame_error_weight : ℚ) (u : ℕ → ℚ) :
    List ℕ → WRScanState → Except Solution WRScanState
  | [], st => .ok st
  | customer_id_pos :: rest, st =>
      match wr_rid_loop data capa_error_weight frame_error_weight u customer_id_pos
          (List.range data.nr_vehicles) st with
      | .error e => .error e
      | .ok st' => wr_cid_loop data capa_error_weight frame_error_weight u rest st'

/-- Loop state of worst-removal phase 2. -/
structure WRLoopState where
  s : Solution
  removed_customers : List ℕ
  candidates : List ℕ
  best_removals : List (List (ℚ × ℕ))
  best_customer_id_pos : ℕ
  best_route_id : ℕ
  best_rem_pos : ℕ
  k : ℕ

/-- Position loop of worst-removal phase 2 step 2.3 for one candidate. -/
def wr_body_pos_loop (data : ALNSData) (capa_error_weight frame_error_weight : ℚ) (u : ℕ → ℚ)
    (route_id : ℕ) :
    List ℕ → ℚ × ℕ → Solution × ℕ → Except Solution ((ℚ × ℕ) × Solution × ℕ)
  | [], best, sk => .ok (best, sk)
  | pos :: rest, best, (s, k) =>
      match evaluate_removal_position data capa_error_weight frame_error_weight route_id pos s with
      | .error e => .error e
      | .ok (v, s') =>
          let tmp_cost := (s'.solution_quality - v) * u k
          if best.1 < tmp_cost then
            wr_body_pos_loop data capa_error_weight frame_error_weight u route_id rest
              (tmp_cost, pos) (s', k + 1)
          else
            wr_body_pos_loop data capa_error_weight frame_error_weight u route_id rest
              best (s', k + 1)

/-- Candidate loop of worst-removal phase 2 step 2.3: recompute the removal
gains of the changed route for every remaining candidate position. -/
def wr_body_cid_loop (data : ALNSData) (capa_error_weight frame_error_weight : ℚ) (u : ℕ → ℚ)
    (route_id : ℕ) :
    List ℕ → List (List (ℚ × ℕ)) → Solution → ℕ →
      Except Solution (List (List (ℚ × ℕ)) × Solution × ℕ)
  | [], br, s, k => .ok (br, s, k)
  | customer_id_pos :: rest, br, s, k =>
      let route := s.solution_representation.getD route_id []
      match wr_body_pos_loop data capa_error_weight frame_error_weight u route_id
          (List.range route.length) (-doubleMax, 0) (s, k) with
      | .error e => .error e
      | .ok (best, s', k') =>
          wr_body_cid_loop data capa_error_weight frame_error_weight u route_id rest
            (set_mat br customer_id_pos route_id best) s' k'

/-- Worst-removal phase 2 step 2.4: rescan the matrix for the next best
candidate. As in the C++ code the outer loop runs over the indices of the
removed-customer list. -/
def wr_select_best (best_removals : List (List (ℚ × ℕ))) (nr_removed nr_vehicles : ℕ)
    (init : ℕ × ℕ × ℕ) : ℚ × ℕ × ℕ × ℕ :=
  (List.range nr_removed).foldl
    (fun acc customer_id_pos =>
      (List.range nr_vehicles).foldl
        (fun (acc : ℚ × ℕ × ℕ × ℕ) route_id =>
          let e := (best_removals.getD customer_id_pos []).getD route_id (0, 0)
          if acc.1 < e.1 then (e.1, customer_id_pos, route_id, e.2) else acc)
        acc)
    (-doubleMax, init.1, init.2.1, init.2.2)

/-- One body execution of the worst-removal phase 2 `while` loop (steps
2.1 to 2.4 of operator.cpp). -/
def wr_loop_body (data : ALNSData) (capa_error_weight frame_error_weight : ℚ) (u : ℕ → ℚ)
    (st : WRLoopState) : Except Solution WRLoopState :=
  let removed' := st.removed_customers ++ [st.candidates.getD st.best_customer_id_pos 0]
  let route := st.s.solution_representation.getD st.best_route_id []
  let s1 : Solution :=
    { st.s with solution_representation :=
        st.s.solution_representation.set st.best_route_id (remove_at route st.best_rem_pos) }
  match evaluate_change data st.best_route_id ((st.best_rem_pos : ℤ) - 1)
      capa_error_weight frame_error_weight s1 with
  | .error e => .error e
  | .ok s2 =>
      let candidates' := remove_at st.candidates st.best_customer_id_pos
      let br1 := remove_at st.best_removals st.best_customer_id_pos
      match wr_body_cid_loop data capa_error_weight frame_error_weight u st.best_route_id
          (List.range candidates'.length) br1 s2 st.k with
      | .error e => .error e
      | .ok (br2, s3, k') =>
          let b := wr_select_best br2 removed'.length data.nr_vehicles
            (st.best_customer_id_pos, st.best_route_id, st.best_rem_pos)
          .ok { s := s3, removed_customers := removed', candidates := candidates',
                best_removals := br2, best_customer_id_pos := b.2.1,
                best_route_id := b.2.2.1, best_rem_pos := b.2.2.2, k := k' }

/-- The phase 2 `while` loop, with the guard exactly as written in the source:
`while (unsigned(nr_removed_customers) < removed_customers.size())`. Modelled
with fuel since the body only ever grows `removed_customers` (the loop, if it
were ever entered, would not terminate). -/
def wr_loop (data : ALNSData) (capa_error_weight frame_error_weight : ℚ) (u : ℕ → ℚ)
    (nr_removed : ℕ) : ℕ → WRLoopState → Except Solution (List ℕ × Solution)
  | 0, st => .ok (st.removed_customers, st.s)
  | fuel + 1, st =>
      if nr_removed < st.removed_customers.length then
        match wr_loop_body data capa_error_weight frame_error_weight u st with
        | .error e => .error e
        | .ok st' => wr_loop data capa_error_weight frame_error_weight u nr_removed fuel st'
      else .ok (st.removed_customers, st.s)

/-- Embedding of `WorstRemovalDestroyOperator::operator()`: sample and clip
the removal count, run the phase 1 gain scan over every candidate, route and
position, then run the phase 2 loop. `nr_draw` is the oracle value of
`tools::rand_number_normal(mean_removal, mean_removal / 2)`. -/
def worst_removal (data : ALNSData) (capa_error_weight frame_error_weight : ℚ)
    (nr_draw : ℤ) (u : ℕ → ℚ) (fuel : ℕ) (s : Solution) : Except Solution (List ℕ × Solution) :=
  let nr_removed := (max 0 (min ((data.nr_customer : ℤ) - 1) nr_draw)).toNat
  let candidates := List.range data.nr_customer
  let st0 : WRScanState :=
    { s := s,
      best_removals := List.replicate data.nr_customer (List.replicate data.nr_vehicles (0, 0)),
      overall_max_diff := -doubleMax,
      best_customer_id_pos := 0, best_route_id := 0, best_rem_pos := 0, k := 0 }
  match wr_cid_loop data capa_error_weight frame_error_weight u
      (List.range candidates.length) st0 with
  | .error e => .error e
  | .ok st1 =>
      wr_loop data capa_error_weight frame_error_weight u nr_removed fuel
        { s := st1.s, removed_customers := [], candidates := candidates,
          best_removals := st1.best_removals,
          best_customer_id_pos := st1.best_customer_id_pos,
          best_route_id := st1.best_route_id, best_rem_pos := st1.best_rem_pos, k := st1.k }

/-- Embedding of the relatedness score computed for one candidate inside
`ShawDestroyOperator::operator()` (operator.cpp lines 628-641), including the
same-route check exactly as written in the source:
`route_chromosome[cand_id] == route_chromosome[cand_id]`. `bias` is the
oracle value of `std::pow(UNI, rnd_factor)`. -/
def shaw_relatedness (distance_weight window_weight demand_weight vehicle_weight : ℚ)
    (norm_distance_matrix norm_start_window_matrix norm_end_window_matrix
      norm_demand_matrix : List (List ℚ))
    (route_chromosome : List ℕ) (rnd_customer_id cand_id : ℕ) (bias : ℚ) : ℚ :=
  let relatedness :=
    distance_weight * matq_at norm_distance_matrix (rnd_customer_id + 1) (cand_id + 1)
    + window_weight * matq_at norm_start_window_matrix rnd_customer_id cand_id
    + window_weight * matq_at norm_end_window_matrix rnd_customer_id cand_id
    + demand_weight * matq_at norm_demand_matrix rnd_customer_id cand_id
  let relatedness :=
    if route_chromosome.getD cand_id 0 = route_chromosome.getD cand_id 0 then
      relatedness + vehicle_weight
    else relatedness
  relatedness * bias

/-- Modelled from the spec: the same relatedness score as the specification
states it, with the vehicle-weight term added exactly when the candidate
currently lies in the same route as the reference customer `q`
(the spec's `(w_veh if same route else 0)`). -/
def shaw_relatedness_claimed (distance_weight window_weight demand_weight vehicle_weight : ℚ)
    (norm_distance_matrix norm_start_window_matrix norm_end_window_matrix
      norm_demand_matrix : List (List ℚ))
    (route_chromosome : List ℕ) (rnd_customer_id cand_id : ℕ) (bias : ℚ) : ℚ :=
  let relatedness :=
    distance_weight * matq_at norm_distance_matrix (rnd_customer_id + 1) (cand_id + 1)
    + window_weight * matq_at norm_start_window_matrix rnd_customer_id cand_id
    + window_weight * matq_at norm_end_window_matrix rnd_customer_id cand_id
    + demand_weight * matq_at norm_demand_matrix rnd_customer_id cand_id
  let relatedness :=
    if route_chromosome.getD cand_id 0 = route_chromosome.getD rnd_customer_id 0 then
      relatedness + vehicle_weight
    else relatedness
  relatedness * bias

/-- The adaptive roulette wheel (roulette_wheel.cpp). The field lists are kept
at length `nr_functors` by the constructor; the loops read them through that
bound. -/
structure RouletteWheel where
  weights : List ℚ
  scores : List ℚ
  nr_uses : List ℕ
  nr_functors : ℕ
  wheel_parameter : ℚ
  min_weight : ℚ
  last_functor_id : ℕ
deriving DecidableEq

/-- Selection scan of `RouletteWheel::get_random_functor_id`: accumulate the
weights over the functor ids and return the first id whose running sum
reaches the drawn value; `none` models the trailing
`throw std::exception("Unexpected error! No functor selected.")`. -/
def rw_find (weights : List ℚ) (rnd : ℚ) : List ℕ → ℚ → Option ℕ
  | [], _ => none
  | functor_id :: rest, current_weight =>
      let current_weight' := current_weight + weights.getD functor_id 0
      if rnd ≤ current_weight' then some functor_id
      else rw_find weights rnd rest current_weight'

/-- Embedding of `RouletteWheel::get_random_functor_id`: draw
`rnd = UNI * (sum of all weights)` (the uniform sample `u` is the oracle
value of `UNI`), scan the functors, and remember the selected id. -/
def get_random_functor_id (w : RouletteWheel) (u : ℚ) : Option (ℕ × RouletteWheel) :=
  let sum_of_weight := w.weights.sum
  let rnd := u * sum_of_weight
  match rw_find w.weights rnd (List.range w.nr_functors) 0 with
  | some functor_id => some (functor_id, { w with last_functor_id := functor_id })
  | none => none

/-- Embedding of `RouletteWheel::update_weights`: blend each used functor's
average score into its weight with decay `wheel_parameter`, clamp from below
at `min_weight`, give unused functors `min_weight`, and reset all scores and
use counts. -/
def update_weights (w : RouletteWheel) : RouletteWheel :=
  { w with
    weights := (List.range w.nr_functors).map (fun functor_id =>
      if w.nr_uses.getD functor_id 0 > 0 then
        let weight := w.wheel_parameter * (w.scores.getD functor_id 0 / (w.nr_uses.getD functor_id 0 : ℚ))
          + (1 - w.wheel_parameter) * w.weights.getD functor_id 0
        if weight < w.min_weight then w.min_weight else weight
      else w.min_weight),
    scores := List.replicate w.nr_functors 0,
    nr_uses := List.replicate w.nr_functors 0 }

/-- The fields of a solution that the driver's best-solution update reads
(part_001, ALNS::solve step 4.3). -/
structure SolKPI where
  driving_time : ℚ
  is_feasible : Bool
deriving DecidableEq

/-- Embedding of the best-solution acceptance step of `ALNS::solve`:
`if ((running.driving_time < best.driving_time) & running.is_feasible)
  best := running`. -/
def best_update (best running : SolKPI) : SolKPI :=
  if running.driving_time < best.driving_time ∧ running.is_feasible then running else best

/-- The traversed arcs of one route in node ids: depot to first customer,
consecutive customer pairs, and last customer back to the depot. -/
def arcs_from (prev_node_id : ℕ) : List ℕ → List (ℕ × ℕ)
  | [] => [(prev_node_id, 0)]
  | customer_id :: rest => (prev_node_id, customer_id + 1) :: arcs_from (customer_id + 1) rest

/-- The arcs of a route starting from the depot. -/
def route_arcs (route : List ℕ) : List (ℕ × ℕ) := arcs_from 0 route

/-- Modelled from the spec: the diversity score as the claim states it, with
real (rational) division of usage counts by `iteration + 1`. -/
def get_diversity_claimed (nr_customer : ℕ) (usage : List (List ℤ)) (iteration : ℕ)
    (rep : List (List ℕ)) : ℚ :=
  let routes_used := (rep.filter (fun route => !route.isEmpty)).length
  let total := ((rep.filter (fun route => !route.isEmpty)).map (fun route =>
    ((route_arcs route).map (fun p =>
      1 - (mat_at usage p.1 p.2 : ℚ) / ((iteration : ℚ) + 1))).sum)).sum
  total / ((nr_customer : ℚ) + (routes_used : ℚ))

/-- The arc-sum form of the diversity score actually computed by the code:
identical to the claimed score except that each usage count is divided by
`iteration + 1` with C++ integer division. -/
def get_diversity_amended (nr_customer : ℕ) (usage : List (List ℤ)) (iteration : ℕ)
    (rep : List (List ℕ)) : ℚ :=
  let routes_used := (rep.filter (fun route => !route.isEmpty)).length
  let total := ((rep.filter (fun route => !route.isEmpty)).map (fun route =>
    ((route_arcs route).map (fun p =>
      1 - (cppIntDiv (mat_at usage p.1 p.2) ((iteration : ℤ) + 1) : ℚ))).sum)).sum
  total / ((nr_customer : ℚ) + (routes_used : ℚ))

/-- Extract the state carried by a completed incremental evaluation. -/
def except_ok_state (d : Solution) : Except Solution Solution → Solution
  | .ok s => s
  | .error _ => d

/-- Extract the state carried by a thrown insertion probe. -/
def except_error_probe (d : Solution) : Except Solution (ℚ × Solution) → Solution
  | .error e => e
  | .ok _ => d

/-- A small concrete instance: two customers of demand 1, two vehicles,
capacity 10, pseudo capacity 5, unit travel times. -/
def exData : ALNSData :=
  { nr_vehicles := 2, nr_nodes := 3, nr_customer := 2,
    demand := [1, 1], service_times := [0, 0],
    start_window := [0, 0], end_window := [10, 10],
    vehicle_cap := 10, add_pseudo_capacity := 5, load_bucket_size := 1,
    time_cube := List.replicate 2 (List.replicate 3 (List.replicate 3 1)) }

/-- A blank solution object over `exData` holding routes `[[0], [1]]`. -/
def exSol0 : Solution :=
  { solution_representation := [[0], [1]], route_chromosome := [0, 0],
    loads := [0, 0], load_levels := [0, 0], arrival_times := [0, 0],
    departure_times := [0, 0], driving_time := 0, capa_error := 0, frame_error := 0,
    is_feasible := false, solution_quality := 0, start_times := [0, 0],
    route_driving_times := [0, 0], route_capa_errors := [0, 0],
    route_frame_errors := [0, 0], route_qualities := [0, 0] }

/-- The fully evaluated example solution. -/
def exSol : Solution := evaluate_solution exData 1 1 exSol0

/-- The example solution after re-evaluating route 0 at position 0. -/
def exChanged : Solution := except_ok_state exSol0 (evaluate_change exData 0 0 1 1 exSol)

/-- A one-customer instance whose single demand (20) exceeds capacity 10 by
at least the pseudo capacity 5: every insertion probe of customer 0 throws. -/
def exDataBig : ALNSData :=
  { nr_vehicles := 1, nr_nodes := 2, nr_customer := 1,
    demand := [20], service_times := [0],
    start_window := [0], end_window := [10],
    vehicle_cap := 10, add_pseudo_capacity := 5, load_bucket_size := 1,
    time_cube := List.replicate 20 (List.replicate 2 (List.replicate 2 1)) }

/-- The evaluated solution with one empty route over `exDataBig`. -/
def exSolBig : Solution :=
  evaluate_solution exDataBig 1 1
    { solution_representation := [[]], route_chromosome := [0],
      loads := [0], load_levels := [0], arrival_times := [0],
      departure_times := [0], driving_time := 0, capa_error := 0, frame_error := 0,
      is_feasible := false, solution_quality := 0, start_times := [0],
      route_driving_times := [0], route_capa_errors := [0],
      route_frame_errors := [0], route_qualities := [0] }

/-- The solution state left behind by the throwing probe over `exDataBig`. -/
def exProbeErr : Solution :=
  except_error_probe exSolBig (evaluate_insertion_position exDataBig 1 1 0 0 0 exSolBig)

/-- A constant random oracle whose draws never exceed the removal mean, so
the random destroy operator removes every customer. -/
def exRng : ℕ → ℤ := fun _ => 0

/-- The example solution after a full random destroy. -/
def exDestroyed : List ℕ × Solution × ℕ := random_destroy exData 1 1 1 exRng 0 exSol

/-- The example solution after repairing the destroyed solution with basic
greedy insertion. -/
def exRepaired : Solution :=
  except_ok_state exSol0 (basic_greedy_insertion exData 1 1 exDestroyed.1 exDestroyed.2.1)

/-- An example roulette wheel with two functors. -/
def exWheel : RouletteWheel :=
  { weights := [1, 2], scores := [3, 0], nr_uses := [2, 0], nr_functors := 2,
    wheel_parameter := 1/10, min_weight := 1, last_functor_id := 0 }

/-! Helper lemmas about the list primitives. -/

theorem remove_at_insert_at {α : Type} (x : α) :
    ∀ (l : List α) (n : ℕ), n ≤ l.length → remove_at (insert_at l n x) n = l
  | l, 0, _ => by simp [insert_at, remove_at]
  | [], n + 1, h => by simp at h
  | a :: l, n + 1, h => by
      simp only [insert_at, remove_at]
      exact congrArg (a :: ·) (remove_at_insert_at x l n (Nat.le_of_succ_le_succ h))

theorem insert_at_remove_at {α : Type} (d : α) :
    ∀ (l : List α) (n : ℕ), n < l.length → insert_at (remove_at l n) n (l.getD n d) = l
  | [], n, h => by simp at h
  | a :: l, 0, _ => by simp [insert_at, remove_at]
  | a :: l, n + 1, h => by
      simp only [remove_at, List.getD_cons_succ, insert_at]
      exact congrArg (a :: ·) (insert_at_remove_at d l n (Nat.lt_of_succ_lt_succ h))

theorem insert_at_perm {α : Type} (x : α) :
    ∀ (l : List α) (n : ℕ), (insert_at l n x).Perm (x :: l)
  | l, 0 => by simp [insert_at]
  | [], _ + 1 => by simp [insert_at]
  | a :: l, n + 1 => by
      simpa [insert_at] using ((insert_at_perm x l n).cons a).trans (List.Perm.swap x a l)

theorem set_getD_self {α : Type} (d : α) :
    ∀ (l : List α) (i : ℕ), l.set i (l.getD i d) = l
  | [], _ => rfl
  | _ :: _, 0 => rfl
  | a :: l, i + 1 => by
      simp only [List.getD_cons_succ, List.set]
      exact congrArg (a :: ·) (set_getD_self d l i)

theorem getD_set_self {α : Type} (d v : α) (l : List α) (i : ℕ) (h : i < l.length) :
    (l.set i v).getD i d = v := by
  rw [List.getD_eq_getElem?_getD, List.getElem?_set_self h]
  rfl

/-- Inserting the probe and removing it again restores the representation. -/
theorem rep_probe_revert (rep : List (List ℕ)) (rid pos cid : ℕ)
    (hpos : pos ≤ (rep.getD rid []).length) :
    (rep.set rid (insert_at (rep.getD rid []) pos cid)).set rid
      (remove_at ((rep.set rid (insert_at (rep.getD rid []) pos cid)).getD rid []) pos) = rep := by
  by_cases hrid : rid < rep.length
  · rw [getD_set_self _ _ _ _ hrid, List.set_set, remove_at_insert_at _ _ _ hpos,
      set_getD_self]
  · rw [List.set_eq_of_length_le (Nat.le_of_not_lt hrid),
      List.set_eq_of_length_le (Nat.le_of_not_lt hrid)]

/-- Removing a customer and re-inserting it at the same position restores the
representation. -/
theorem rep_removal_revert (rep : List (List ℕ)) (rid pos : ℕ)
    (hpos : pos < (rep.getD rid []).length) :
    (rep.set rid (remove_at (rep.getD rid []) pos)).set rid
      (insert_at ((rep.set rid (remove_at (rep.getD rid []) pos)).getD rid []) pos
        ((rep.getD rid []).getD pos 0)) = rep := by
  by_cases hrid : rid < rep.length
  · rw [getD_set_self _ _ _ _ hrid, List.set_set, insert_at_remove_at _ _ _ hpos,
      set_getD_self]
  · rw [List.set_eq_of_length_le (Nat.le_of_not_lt hrid),
      List.set_eq_of_length_le (Nat.le_of_not_lt hrid)]

/-- Inserting a customer into an existing route adds exactly that customer to
the flattened representation. -/
theorem flatten_set_insert :
    ∀ (rep : List (List ℕ)) (rid : ℕ), rid < rep.length → ∀ (pos cid : ℕ),
      ((rep.set rid (insert_at (rep.getD rid []) pos cid)).flatten).Perm
        (cid :: rep.flatten)
  | [], rid, h => by simp at h
  | r :: rs, 0, _ => by
      intro pos cid
      simpa [List.flatten_cons] using (insert_at_perm cid r pos).append_right rs.flatten
  | r :: rs, rid + 1, h => by
      intro pos cid
      have ih := flatten_set_insert rs rid (Nat.lt_of_succ_lt_succ h) pos cid
      simp only [List.set, List.getD_cons_succ, List.flatten_cons]
      exact (ih.append_left r).trans List.perm_middle

/-- Incremental re-evaluation never touches the routing representation
(throwing arm). -/
theorem evaluate_change_rep_error (data : ALNSData) (route_id : ℕ) (ins_pos : ℤ)
    (cw fw : ℚ) (s e : Solution)
    (h : evaluate_change data route_id ins_pos cw fw s = .error e) :
    e.solution_representation = s.solution_representation := by
  simp only [evaluate_change] at h
  split at h
  · injection h with h; rw [← h]
  · cases h

/-- Incremental re-evaluation never touches the routing representation
(completing arm). -/
theorem evaluate_change_rep_ok (data : ALNSData) (route_id : ℕ) (ins_pos : ℤ)
    (cw fw : ℚ) (s s' : Solution)
    (h : evaluate_change data route_id ins_pos cw fw s = .ok s') :
    s'.solution_representation = s.solution_representation := by
  simp only [evaluate_change] at h
  split at h
  · cases h
  · injection h with h; rw [← h]

/-- Characterization of the insertion probe: whichever way it returns, the
routing representation is restored to its pre-call contents, and a normal
return carries the quality of the solution with the customer tentatively
inserted. -/
theorem eip_spec (data : ALNSData) (cw fw : ℚ) (rid cid pos : ℕ) (s : Solution)
    (hpos : pos ≤ (s.solution_representation.getD rid []).length) :
    (∀ e, evaluate_insertion_position data cw fw rid cid pos s = .error e →
       e.solution_representation = s.solution_representation) ∧
    (∀ q s', evaluate_insertion_position data cw fw rid cid pos s = .ok (q, s') →
       s'.solution_representation = s.solution_representation ∧
       ∃ s1, evaluate_change data rid (pos : ℤ) cw fw
           { s with
             solution_representation := s.solution_representation.set rid
               (insert_at (s.solution_representation.getD rid []) pos cid),
             route_chromosome := s.route_chromosome.set cid rid } = .ok s1 ∧
         q = s1.solution_quality) := by
  have core : ∀ s1 : Solution,
      s1.solution_representation =
        s.solution_representation.set rid
          (insert_at (s.solution_representation.getD rid []) pos cid) →
      s1.solution_representation.set rid
          (remove_at (s1.solution_representation.getD rid []) pos) =
        s.solution_representation := by
    intro s1 h1
    rw [h1]
    exact rep_probe_revert _ _ _ _ hpos
  constructor
  · intro e h
    simp only [evaluate_insertion_position] at h
    split at h
    · rename_i s1 hec1
      split at h
      · rename_i s3 hec2
        injection h with h; subst h
        have h1 := evaluate_change_rep_error _ _ _ _ _ _ _ hec1
        have h3 := evaluate_change_rep_error _ _ _ _ _ _ _ hec2
        rw [h3]
        exact core s1 h1
      · rename_i s3 hec2
        injection h with h; subst h
        have h1 := evaluate_change_rep_error _ _ _ _ _ _ _ hec1
        have h3 := evaluate_change_rep_ok _ _ _ _ _ _ _ hec2
        rw [h3]
        exact core s1 h1
    · rename_i s1 hec1
      split at h
      · rename_i s3 hec2
        injection h with h; subst h
        have h1 := evaluate_change_rep_ok _ _ _ _ _ _ _ hec1
        have h3 := evaluate_change_rep_error _ _ _ _ _ _ _ hec2
        rw [h3]
        exact core s1 h1
      · cases h
  · intro q s' h
    simp only [evaluate_insertion_position] at h
    split at h
    · rename_i s1 hec1
      split at h
      · cases h
      · cases h
    · rename_i s1 hec1
      split at h
      · cases h
      · rename_i s3 hec2
        injection h with h
        have hq : s1.solution_quality = q := congrArg Prod.fst h
        have hs : s3 = s' := congrArg Prod.snd h
        subst hq
        subst hs
        have h1 := evaluate_change_rep_ok _ _ _ _ _ _ _ hec1
        have h3 := evaluate_change_rep_ok _ _ _ _ _ _ _ hec2
        refine ⟨?_, s1, hec1, rfl⟩
        rw [h3]
        exact core s1 h1

/-- The per-route probing loop of `get_best_insertion` restores the routing
representation whatever happens, and only ever redirects the tracked best
insertion to the scanned route. -/
theorem gbi_route_spec (data : ALNSData) (cw fw : ℚ) (cid rid : ℕ)
    (positions : List ℕ) :
    ∀ (s : Solution) (best : ℚ × ℕ × ℕ),
      (∀ p ∈ positions, p ≤ (s.solution_representation.getD rid []).length) →
      (gbi_route data cw fw cid rid positions s best).1.solution_representation =
          s.solution_representation ∧
        ((gbi_route data cw fw cid rid positions s best).2.2.1 = best.2.1 ∨
          (gbi_route data cw fw cid rid positions s best).2.2.1 = rid) := by
  induction positions with
  | nil => intro s best _; exact ⟨rfl, Or.inl rfl⟩
  | cons pos rest ih =>
      intro s best hp
      have hpos : pos ≤ (s.solution_representation.getD rid []).length :=
        hp pos (List.mem_cons_self pos rest)
      rcases hei : evaluate_insertion_position data cw fw rid cid pos s with e | ⟨q, s'⟩
      · have h1 := (eip_spec data cw fw rid cid pos s hpos).1 e hei
        simp only [gbi_route, hei]
        simp [h1]
      · have hrep := ((eip_spec data cw fw rid cid pos s hpos).2 q s' hei).1
        have hrest : ∀ p ∈ rest, p ≤ (s'.solution_representation.getD rid []).length := by
          rw [hrep]
          exact fun p hpm => hp p (List.mem_cons_of_mem _ hpm)
        simp only [gbi_route, hei]
        by_cases hlt : best.1 > q - s'.solution_quality
        · simp only [if_pos hlt]
          have h := ih s' (q - s'.solution_quality, rid, pos) hrest
          exact ⟨h.1.trans hrep, Or.inr (h.2.elim id id)⟩
        · simp only [if_neg hlt]
          have h := ih s' best hrest
          exact ⟨h.1.trans hrep, h.2⟩

/-- The route loop of `get_best_insertion` restores the representation and
returns a best route id that is either the initial one or one of the scanned
route ids. -/
theorem gbi_routes_spec (data : ALNSData) (cw fw : ℚ) (cid : ℕ) (rids : List ℕ) :
    ∀ (s : Solution) (best : ℚ × ℕ × ℕ),
      (gbi_routes data cw fw cid rids s best).1.solution_representation =
          s.solution_representation ∧
        ((gbi_routes data cw fw cid rids s best).2.2.1 = best.2.1 ∨
          (gbi_routes data cw fw cid rids s best).2.2.1 ∈ rids) := by
  induction rids with
  | nil => intro s best; exact ⟨rfl, Or.inl rfl⟩
  | cons rid rest ih =>
      intro s best
      simp only [gbi_routes]
      have hr := gbi_route_spec data cw fw cid rid
        (List.range ((s.solution_representation.getD rid []).length + 1)) s best
        (fun p hp => Nat.lt_succ_iff.mp (List.mem_range.mp hp))
      have hi := ih
        (gbi_route data cw fw cid rid
          (List.range ((s.solution_representation.getD rid []).length + 1)) s best).1
        (gbi_route data cw fw cid rid
          (List.range ((s.solution_representation.getD rid []).length + 1)) s best).2
      refine ⟨hi.1.trans hr.1, ?_⟩
      rcases hi.2 with h | h
      · rw [h]
        rcases hr.2 with h2 | h2
        · exact Or.inl h2
        · exact Or.inr (by rw [h2]; exact List.mem_cons_self rid rest)
      · exact Or.inr (List.mem_cons_of_mem _ h)

/-- Global best insertion: the representation is untouched and, when there is
at least one route, the returned route id is a valid index. -/
theorem get_best_insertion_spec (data : ALNSData) (cw fw : ℚ) (cid : ℕ) (s : Solution) :
    (get_best_insertion data cw fw cid (-1) s).1.solution_representation =
        s.solution_representation ∧
      (0 < s.solution_representation.length →
        (get_best_insertion data cw fw cid (-1) s).2.2.1 <
          s.solution_representation.length) := by
  have hneg : ¬ (0 : ℤ) ≤ -1 := by norm_num
  have h := gbi_routes_spec data cw fw cid
    (List.range s.solution_representation.length) s (doubleMax, 0, 0)
  constructor
  · simpa only [get_best_insertion, if_neg hneg] using h.1
  · intro hlen
    have h2 := h.2
    simp only [get_best_insertion, if_neg hneg]
    rcases h2 with h2 | h2
    · rw [h2]; exact hlen
    · exact List.mem_range.mp h2

/-- Rearranging two concatenations pairwise preserves the multiset. -/
theorem append_shuffle {α : Type} (a b c d : List α) :
    ((a ++ b) ++ (c ++ d)).Perm ((a ++ c) ++ (b ++ d)) := by
  rw [List.append_assoc, List.append_assoc]
  refine List.Perm.append_left a ?_
  have h1 : b ++ (c ++ d) = (b ++ c) ++ d := by rw [List.append_assoc]
  have h2 : c ++ (b ++ d) = (c ++ b) ++ d := by rw [List.append_assoc]
  rw [h1, h2]
  exact List.perm_append_comm.append_right d

/-- The customer filter of the random destroy operator only partitions a
route: kept plus removed customers are a permutation of the route. -/
theorem random_destroy_route_perm (mean_removal : ℚ) (rng : ℕ → ℤ) :
    ∀ (route : List ℕ) (k : ℕ),
      ((random_destroy_route mean_removal rng route k).1 ++
        (random_destroy_route mean_removal rng route k).2.1).Perm route := by
  intro route
  induction route with
  | nil => intro k; exact List.Perm.refl _
  | cons c rest ih =>
      intro k
      simp only [random_destroy_route]
      by_cases hc : ((rng k : ℚ) > mean_removal)
      · simp only [if_pos hc]
        exact (ih (k + 1)).cons c
      · simp only [if_neg hc]
        exact List.perm_middle.trans ((ih (k + 1)).cons c)

/-- Route-level version: the destroyed representation plus the removed list
is a permutation of the original flattened representation. -/
theorem random_destroy_rep_perm (mean_removal : ℚ) (rng : ℕ → ℤ) :
    ∀ (rep : List (List ℕ)) (k : ℕ),
      ((random_destroy_rep mean_removal rng rep k).1.flatten ++
        (random_destroy_rep mean_removal rng rep k).2.1).Perm rep.flatten := by
  intro rep
  induction rep with
  | nil => intro k; exact List.Perm.refl _
  | cons route rest ih =>
      intro k
      simp only [random_destroy_rep, List.flatten_cons]
      refine (append_shuffle _ _ _ _).trans ?_
      exact (random_destroy_route_perm mean_removal rng route k).append
        (ih (random_destroy_route mean_removal rng route k).2.2)

/-- Full re-evaluation rewrites only the caches, never the representation. -/
theorem evaluate_solution_rep (data : ALNSData) (cw fw : ℚ) (s : Solution) :
    (evaluate_solution data cw fw s).solution_representation = s.solution_representation := rfl

/-- Basic greedy insertion adds exactly the received customers to the
flattened representation when it completes normally. -/
theorem basic_greedy_perm (data : ALNSData) (cw fw : ℚ) :
    ∀ (removedL : List ℕ) (s sf : Solution),
      s.solution_representation ≠ [] →
      basic_greedy_insertion data cw fw removedL s = .ok sf →
      sf.solution_representation.flatten.Perm
        (removedL ++ s.solution_representation.flatten) := by
  intro removedL
  induction removedL with
  | nil =>
      intro s sf _ h
      injection h with h
      rw [← h]
      exact List.Perm.refl _
  | cons cid rest ih =>
      intro s sf hne h
      simp only [basic_greedy_insertion] at h
      split at h
      · cases h
      · rename_i s3 hec
        have hlen : 0 < s.solution_representation.length := List.length_pos.mpr hne
        have hg := get_best_insertion_spec data cw fw cid s
        have hrep1 := hg.1
        have hrid := hg.2 hlen
        have hrep3 := evaluate_change_rep_ok _ _ _ _ _ _ _ hec
        have hlen3 : s3.solution_representation ≠ [] := by
          rw [hrep3]
          intro hempty
          have hl := congrArg List.length hempty
          simp only [List.length_set, hrep1, List.length_nil] at hl
          omega
        have hperm3 : s3.solution_representation.flatten.Perm
            (cid :: s.solution_representation.flatten) := by
          rw [hrep3]
          have hfl := flatten_set_insert
            ((get_best_insertion data cw fw cid (-1) s).1.solution_representation)
            ((get_best_insertion data cw fw cid (-1) s).2.2.1)
            (by rw [hrep1]; exact hrid)
            ((get_best_insertion data cw fw cid (-1) s).2.2.2) cid
          exact hfl.trans (by rw [hrep1])
        have hi := ih s3 sf hlen3 h
        refine hi.trans ?_
        exact (hperm3.append_left rest).trans List.perm_middle

/-- A completed removal probe restores the routing representation. -/
theorem erp_rep_ok (data : ALNSData) (cw fw : ℚ) (rid pos : ℕ) (s : Solution)
    (hpos : pos < (s.solution_representation.getD rid []).length)
    (v : ℚ) (s' : Solution)
    (h : evaluate_removal_position data cw fw rid pos s = .ok (v, s')) :
    s'.solution_representation = s.solution_representation := by
  simp only [evaluate_removal_position] at h
  split at h
  · cases h
  · rename_i s2 hec1
    split at h
    · cases h
    · rename_i s4 hec2
      injection h with h
      have hs : s4 = s' := congrArg Prod.snd h
      subst hs
      have h2 := evaluate_change_rep_ok _ _ _ _ _ _ _ hec1
      have h4 := evaluate_change_rep_ok _ _ _ _ _ _ _ hec2
      rw [h4]
      have key : s2.solution_representation.set rid
          (insert_at (s2.solution_representation.getD rid []) pos
            ((s.solution_representation.getD rid []).getD pos 0)) =
          s.solution_representation := by
        rw [h2]
        exact rep_removal_revert _ _ _ hpos
      exact key

/-- The phase 1 position loop of the worst-removal operator restores the
representation when every probe completes. -/
theorem wr_pos_loop_rep (data : ALNSData) (cw fw : ℚ) (u : ℕ → ℚ) (cidp rid : ℕ) :
    ∀ (positions : List ℕ) (maxd : ℚ) (st : WRScanState) (r : ℚ × WRScanState),
      (∀ p ∈ positions, p < (st.s.solution_representation.getD rid []).length) →
      wr_pos_loop data cw fw u cidp rid positions maxd st = .ok r →
      r.2.s.solution_representation = st.s.solution_representation := by
  intro positions
  induction positions with
  | nil =>
      intro maxd st r _ h
      injection h with h
      rw [← h]
  | cons pos rest ih =>
      intro maxd st r hmem h
      have hpos : pos < (st.s.solution_representation.getD rid []).length :=
        hmem pos (List.mem_cons_self pos rest)
      simp only [wr_pos_loop] at h
      split at h
      · cases h
      · rename_i v s' herp
        have hs' := erp_rep_ok data cw fw rid pos st.s hpos v s' herp
        have hmem' : ∀ p ∈ rest, p < (s'.solution_representation.getD rid []).length := by
          rw [hs']
          exact fun p hp => hmem p (List.mem_cons_of_mem _ hp)
        split at h
        · split at h
          · exact (ih _ _ _ hmem' h).trans hs'
          · exact (ih _ _ _ hmem' h).trans hs'
        · exact (ih _ _ _ hmem' h).trans hs'

/-- The phase 1 route loop of the worst-removal operator restores the
representation when every probe completes. -/
theorem wr_rid_loop_rep (data : ALNSData) (cw fw : ℚ) (u : ℕ → ℚ) (cidp : ℕ) :
    ∀ (rids : List ℕ) (st : WRScanState) (r : WRScanState),
      wr_rid_loop data cw fw u cidp rids st = .ok r →
      r.s.solution_representation = st.s.solution_representation := by
  intro rids
  induction rids with
  | nil =>
      intro st r h
      injection h with h
      rw [← h]
  | cons rid rest ih =>
      intro st r h
      simp only [wr_rid_loop] at h
      split at h
      · cases h
      · rename_i q st' hloop
        have hrep := wr_pos_loop_rep data cw fw u cidp rid
          (List.range (st.s.solution_representation.getD rid []).length) (-doubleMax) st (q, st')
          (fun p hp => List.mem_range.mp hp) hloop
        exact (ih _ _ h).trans hrep

/-- The phase 1 candidate loop of the worst-removal operator restores the
representation when every probe completes. -/
theorem wr_cid_loop_rep (data : ALNSData) (cw fw : ℚ) (u : ℕ → ℚ) :
    ∀ (cidps : List ℕ) (st : WRScanState) (r : WRScanState),
      wr_cid_loop data cw fw u cidps st = .ok r →
      r.s.solution_representation = st.s.solution_representation := by
  intro cidps
  induction cidps with
  | nil =>
      intro st r h
      injection h with h
      rw [← h]
  | cons cidp rest ih =>
      intro st r h
      simp only [wr_cid_loop] at h
      split at h
      · cases h
      · rename_i st' hloop
        exact (ih _ _ h).trans (wr_rid_loop_rep data cw fw u cidp _ st st' hloop)

/-- The phase 2 loop exits immediately when the removed list is empty: the
guard compares the target count against the current size the wrong way
around. -/
theorem wr_loop_empty (data : ALNSData) (cw fw : ℚ) (u : ℕ → ℚ) (n : ℕ) :
    ∀ (fuel : ℕ) (st : WRLoopState), st.removed_customers = [] →
      wr_loop data cw fw u n fuel st = .ok (st.removed_customers, st.s)
  | 0, st, _ => rfl
  | fuel + 1, st, h => by simp [wr_loop, h]

/-- The random destroy operator never changes the number of routes. -/
theorem random_destroy_rep_length (mean_removal : ℚ) (rng : ℕ → ℤ) :
    ∀ (rep : List (List ℕ)) (k : ℕ),
      (random_destroy_rep mean_removal rng rep k).1.length = rep.length := by
  intro rep
  induction rep with
  | nil => intro k; rfl
  | cons route rest ih =>
      intro k
      simp only [random_destroy_rep, List.length_cons, ih]

/-- C4: as written, `WorstRemovalDestroyOperator::operator()` removes no
customer at all. The phase 2 loop guard
`while (unsigned(nr_removed_customers) < removed_customers.size())` compares
the sampled count against the size of the initially empty removal list, so it
fails immediately: whenever the operator returns normally it returns the
empty list and the routing representation is unchanged (contradicting the
claim that it removes exactly the sampled number of customers). -/
theorem worst_removal_removes_nothing (data : ALNSData) (cw fw : ℚ) (nr_draw : ℤ)
    (u : ℕ → ℚ) (fuel : ℕ) (s : Solution) :
    match worst_removal data cw fw nr_draw u fuel s with
    | .ok r => r.1 = [] ∧ r.2.solution_representation = s.solution_representation
    | .error _ => True := by
  rcases hcid : wr_cid_loop data cw fw u (List.range (List.range data.nr_customer).length)
      { s := s,
        best_removals := List.replicate data.nr_customer (List.replicate data.nr_vehicles (0, 0)),
        overall_max_diff := -doubleMax, best_customer_id_pos := 0, best_route_id := 0,
        best_rem_pos := 0, k := 0 } with e | st1
  · simp only [worst_removal, hcid]
  · simp only [worst_removal, hcid]
    rw [wr_loop_empty data cw fw u _ fuel _ rfl]
    exact ⟨rfl, wr_cid_loop_rep data cw fw u _ _ st1 hcid⟩

/-- C3: a random destroy followed by a completed basic greedy repair
preserves the customer multiset. The destroy operator removes exactly the
customers it returns; the repair operator inserts every received id exactly
once; and when the customers of the starting solution are exactly
`{0, ..., n-1}`, they are exactly `{0, ..., n-1}` again afterwards. -/
theorem destroy_repair_permutation (data : ALNSData) (cw fw mean_removal : ℚ)
    (rng : ℕ → ℤ) (k : ℕ) (s : Solution) (n : ℕ) (removedL : List ℕ) (sf : Solution) :
    ((random_destroy data cw fw mean_removal rng k s).2.1.solution_representation.flatten ++
        (random_destroy data cw fw mean_removal rng k s).1).Perm
      s.solution_representation.flatten ∧
    (s.solution_representation ≠ [] →
      basic_greedy_insertion data cw fw removedL s = .ok sf →
      sf.solution_representation.flatten.Perm
        (removedL ++ s.solution_representation.flatten)) ∧
    (s.solution_representation.flatten.Perm (List.range n) →
      s.solution_representation ≠ [] →
      basic_greedy_insertion data cw fw (random_destroy data cw fw mean_removal rng k s).1
          (random_destroy data cw fw mean_removal rng k s).2.1 = .ok sf →
      sf.solution_representation.flatten.Perm (List.range n)) := by
  have hdestroy :
      ((random_destroy data cw fw mean_removal rng k s).2.1.solution_representation.flatten ++
        (random_destroy data cw fw mean_removal rng k s).1).Perm
      s.solution_representation.flatten :=
    random_destroy_rep_perm mean_removal rng s.solution_representation k
  refine ⟨hdestroy, fun hne h => basic_greedy_perm data cw fw removedL s sf hne h, ?_⟩
  intro hperm hne h
  have hne' : (random_destroy data cw fw mean_removal rng k s).2.1.solution_representation ≠ [] := by
    intro hempty
    have hl := congrArg List.length hempty
    have hlen : (random_destroy data cw fw mean_removal rng k s).2.1.solution_representation.length
        = s.solution_representation.length :=
      random_destroy_rep_length mean_removal rng s.solution_representation k
    rw [hlen, List.length_nil] at hl
    exact hne (List.length_eq_zero.mp hl)
  have hbg := basic_greedy_perm data cw fw (random_destroy data cw fw mean_removal rng k s).1
    (random_destroy data cw fw mean_removal rng k s).2.1 sf hne' h
  refine hbg.trans (List.perm_append_comm.trans (hdestroy.trans hperm))

/-- C1: `Solution::evaluate_change` throws exactly when the freshly
recomputed capacity error of the route reaches `add_pseudo_capacity`. On a
throw, the loads, the load levels and the aggregate `capa_error` already
reflect the new route contents while every other cached field (arrival and
departure times, driving time, frame error, quality, their aggregates and all
per-route caches) still holds its previous stale value; on a normal return
every touched field is rebuilt from the new route contents. -/
theorem evaluate_change_characterization (data : ALNSData) (route_id : ℕ) (ins_pos : ℤ)
    (cw fw : ℚ) (s : Solution) :
    let route := s.solution_representation.getD route_id []
    let p := update_load_levels s.loads s.load_levels route ins_pos data.demand
      data.load_bucket_size
    let rce := get_capa_error route data.vehicle_cap p.1
    ((data.add_pseudo_capacity ≤ rce ↔
        ∃ e, evaluate_change data route_id ins_pos cw fw s = .error e) ∧
      (∀ e, evaluate_change data route_id ins_pos cw fw s = .error e →
        e.loads = p.1 ∧ e.load_levels = p.2 ∧
        e.capa_error = s.capa_error - s.route_capa_errors.getD route_id 0 + rce ∧
        e.arrival_times = s.arrival_times ∧ e.departure_times = s.departure_times ∧
        e.driving_time = s.driving_time ∧ e.frame_error = s.frame_error ∧
        e.solution_quality = s.solution_quality ∧
        e.route_driving_times = s.route_driving_times ∧
        e.route_capa_errors = s.route_capa_errors ∧
        e.route_frame_errors = s.route_frame_errors ∧
        e.route_qualities = s.route_qualities ∧
        e.is_feasible = s.is_feasible ∧
        e.start_times = s.start_times ∧
        e.solution_representation = s.solution_representation ∧
        e.route_chromosome = s.route_chromosome) ∧
      (∀ s', evaluate_change data route_id ins_pos cw fw s = .ok s' →
        let start_time := get_starting_time route p.2 data.start_window data.time_cube
        let t := update_visit_times route p.2 data.start_window data.time_cube
          data.service_times start_time s.arrival_times s.departure_times
        let rfe := get_frame_error route data.end_window t.2.1
        let rq := get_quality t.1 rce rfe cw fw
        s'.loads = p.1 ∧ s'.load_levels = p.2 ∧
        s'.capa_error = s.capa_error - s.route_capa_errors.getD route_id 0 + rce ∧
        s'.arrival_times = t.2.1 ∧ s'.departure_times = t.2.2 ∧
        s'.driving_time = s.driving_time - s.route_driving_times.getD route_id 0 + t.1 ∧
        s'.frame_error = s.frame_error - s.route_frame_errors.getD route_id 0 + rfe ∧
        s'.solution_quality = s.solution_quality - s.route_qualities.getD route_id 0 + rq ∧
        s'.route_driving_times = s.route_driving_times.set route_id t.1 ∧
        s'.route_capa_errors = s.route_capa_errors.set route_id rce ∧
        s'.route_frame_errors = s.route_frame_errors.set route_id rfe ∧
        s'.route_qualities = s.route_qualities.set route_id rq ∧
        s'.is_feasible = set_is_feasible s'.capa_error s'.frame_error ∧
        s'.solution_representation = s.solution_representation)) := by
  intro route p rce
  refine ⟨⟨fun hc => ?_, fun he => ?_⟩, fun e he => ?_, fun s' hs => ?_⟩
  · refine ⟨{ s with
        loads := p.1
        load_levels := p.2
        capa_error := s.capa_error - s.route_capa_errors.getD route_id 0 + rce }, ?_⟩
    simp only [evaluate_change]
    rw [if_pos hc]
  · obtain ⟨e, he⟩ := he
    simp only [evaluate_change] at he
    split at he
    · assumption
    · cases he
  · simp only [evaluate_change] at he
    split at he
    · injection he with he
      rw [← he]
      exact ⟨rfl, rfl, rfl, rfl, rfl, rfl, rfl, rfl, rfl, rfl, rfl, rfl, rfl, rfl, rfl, rfl⟩
    · cases he
  · simp only [evaluate_change] at hs
    split at hs
    · cases hs
    · injection hs with hs
      rw [← hs]
      exact ⟨rfl, rfl, rfl, rfl, rfl, rfl, rfl, rfl, rfl, rfl, rfl, rfl, rfl, rfl⟩

/-- C2: the insertion probe returns the solution quality with the customer
tentatively inserted and restores the route to its pre-call contents, both
when it returns normally and when it rethrows after reverting; and once one
position of a route raises inside `get_best_insertion`, the position loop of
that route stops immediately (no later position of the route is probed and
the probing result is a plain value, so the exception never escapes the
repair operator). -/
theorem insertion_probe_reverts_and_breaks (data : ALNSData) (cw fw : ℚ) (rid cid : ℕ) :
    (∀ (pos : ℕ) (s : Solution),
      pos ≤ (s.solution_representation.getD rid []).length →
      (∀ e, evaluate_insertion_position data cw fw rid cid pos s = .error e →
        e.solution_representation = s.solution_representation) ∧
      (∀ q s', evaluate_insertion_position data cw fw rid cid pos s = .ok (q, s') →
        s'.solution_representation = s.solution_representation ∧
        ∃ s1, evaluate_change data rid (pos : ℤ) cw fw
            { s with
              solution_representation := s.solution_representation.set rid
                (insert_at (s.solution_representation.getD rid []) pos cid),
              route_chromosome := s.route_chromosome.set cid rid } = .ok s1 ∧
          q = s1.solution_quality)) ∧
    (∀ (pos : ℕ) (rest : List ℕ) (s e : Solution) (best : ℚ × ℕ × ℕ),
      evaluate_insertion_position data cw fw rid cid pos s = .error e →
      gbi_route data cw fw cid rid (pos :: rest) s best = (e, best)) := by
  refine ⟨fun pos s hpos => eip_spec data cw fw rid cid pos s hpos, ?_⟩
  intro pos rest s e best h
  simp only [gbi_route, h]

/-- C5: the same-route check of the Shaw operator (operator.cpp line 636)
compares the candidate's route with itself, so the vehicle-weight term is
added for every candidate. Here the candidate (route 1) does not lie in the
reference customer's route (route 0): the specified score is 0, yet the code
adds the vehicle weight 5. -/
theorem shaw_vehicle_weight_always_added :
    ([0, 1] : List ℕ).getD 1 0 ≠ ([0, 1] : List ℕ).getD 0 0 ∧
    shaw_relatedness 0 0 0 5 [] [] [] [] [0, 1] 0 1 1 = 5 ∧
    shaw_relatedness_claimed 0 0 0 5 [] [] [] [] [0, 1] 0 1 1 = 0 := by
  refine ⟨by decide, ?_, ?_⟩ <;>
    norm_num [shaw_relatedness, shaw_relatedness_claimed, matq_at]

/-- One route's contribution to the diversity score equals the arc-wise sum
over the route's traversed arcs. -/
theorem get_diversity_go_eq (usage : List (List ℤ)) (ni : ℤ) :
    ∀ (route : List ℕ) (prev : ℕ) (acc : ℚ),
      get_diversity_go usage ni route prev acc =
        acc + ((arcs_from prev route).map
          (fun p => 1 - (cppIntDiv (mat_at usage p.1 p.2) ni : ℚ))).sum := by
  intro route
  induction route with
  | nil =>
      intro prev acc
      simp [get_diversity_go, arcs_from]
  | cons c rest ih =>
      intro prev acc
      simp only [get_diversity_go, arcs_from, List.map_cons, List.sum_cons, ih]
      ring

/-- The accumulating route fold of `get_diversity` computed in closed form. -/
theorem get_diversity_foldl (usage : List (List ℤ)) (ni : ℤ) :
    ∀ (rep : List (List ℕ)) (n0 : ℕ) (d0 : ℚ),
      rep.foldl (fun (p : ℕ × ℚ) route =>
          if route.length > 0 then (p.1 + 1, get_diversity_go usage ni route 0 p.2) else p)
        (n0, d0) =
      (n0 + (rep.filter (fun route => !route.isEmpty)).length,
       d0 + ((rep.filter (fun route => !route.isEmpty)).map (fun route =>
         ((route_arcs route).map
           (fun p => 1 - (cppIntDiv (mat_at usage p.1 p.2) ni : ℚ))).sum)).sum) := by
  intro rep
  induction rep with
  | nil => intro n0 d0; simp
  | cons route rest ih =>
      intro n0 d0
      cases route with
      | nil => simpa using ih n0 d0
      | cons c cs =>
          have hpos : 0 < (c :: cs).length := Nat.succ_pos cs.length
          simp only [List.foldl_cons]
          rw [if_pos hpos, ih, get_diversity_go_eq]
          simp only [List.filter_cons, List.isEmpty_cons, Bool.not_false, if_true,
            List.length_cons, List.map_cons, List.sum_cons, route_arcs]
          rw [Prod.mk.injEq]
          constructor
          · omega
          · ring

/-- C6 (amended): `Solution::get_diversity` equals the claimed arc-sum
formula with the usage ratio computed by C++ integer division. -/
theorem get_diversity_amended_eq (nr_customer : ℕ) (usage : List (List ℤ)) (iteration : ℕ)
    (rep : List (List ℕ)) :
    get_diversity nr_customer usage iteration rep =
      get_diversity_amended nr_customer usage iteration rep := by
  simp only [get_diversity, get_diversity_amended, get_diversity_foldl]
  push_cast
  ring_nf

/-- C6 (counterexample): with one customer, one non-empty route and usage
count 1 at iteration 1, the code returns (1 + 1) / 2 = 1 (the integer
division 1 / 2 is 0), while the claimed real-division formula gives
(1/2 + 1) / 2 = 3/4. -/
theorem get_diversity_integer_division_cex :
    get_diversity 1 [[0, 1], [0, 0]] 1 [[0]] ≠
      get_diversity_claimed 1 [[0, 1], [0, 0]] 1 [[0]] := by
  norm_num [get_diversity, get_diversity_claimed, get_diversity_go, mat_at, cppIntDiv,
    route_arcs, arcs_from]

/-- C7 (counterexample): the bucket of load 0 with bucket size 1 is 0 in the
code (C++ `int` conversion truncates toward zero), not `floor(-0.3) = -1` as
the claim's formula states for every load `x ≥ 0`. -/
theorem get_load_bucket_floor_cex :
    ¬ get_load_bucket 0 1 = ⌊((0 : ℚ) - 3/10) / 1⌋ := by
  norm_num [get_load_bucket, cppIntCast]
  have h : ⌈(-(3 / 10) : ℚ)⌉ = 0 := by
    rw [Int.ceil_eq_zero_iff]
    constructor <;> norm_num
  rw [h]
  norm_num

/-- C7 (amended): for loads of at least 0.3 (so the shifted argument is
nonnegative and truncation agrees with floor) and positive bucket size, the
bucket index is `floor((x - 0.3) / s)`; in particular a load on a bucket's
upper bound falls into the lower bucket. -/
theorem get_load_bucket_floor_of_ge (x s : ℚ) (hx : 3/10 ≤ x) (hs : 0 < s) :
    get_load_bucket x s = ⌊(x - 3/10) / s⌋ := by
  unfold get_load_bucket cppIntCast
  rw [if_pos]
  exact div_nonneg (by linarith) hs.le

/-- Reading a position of a mapped range gives the mapped value. -/
theorem map_range_getD {α : Type} (f : ℕ → α) (d : α) (n i : ℕ) (h : i < n) :
    ((List.range n).map f).getD i d = f i := by
  rw [List.getD_eq_getElem _ _ (by simpa using h)]
  simp [List.getElem_map, List.getElem_range]

/-- Mapping the default read over a list's own index range rebuilds the list. -/
theorem map_getD_range {α : Type} (d : α) :
    ∀ (l : List α), (List.range l.length).map (fun i => l.getD i d) = l := by
  intro l
  induction l with
  | nil => rfl
  | cons a t ih =>
      have hcomp : ((fun i => (a :: t).getD i d) ∘ Nat.succ) = (fun i => t.getD i d) := by
        funext i
        simp [List.getD_cons_succ]
      rw [List.length_cons, List.range_succ_eq_map, List.map_cons, List.map_map, hcomp,
        List.getD_cons_zero, ih]

/-- C8: `RouletteWheel::update_weights` sets each used functor's weight to
the decayed blend of its average score clamped from below at `min_weight`,
gives every unused functor `min_weight`, resets all scores and use counts,
and therefore leaves every weight at least `min_weight` and the weight sum
positive whenever `min_weight` is positive and there is a functor. -/
theorem update_weights_spec (w : RouletteWheel) :
    (∀ i, i < w.nr_functors →
      (update_weights w).weights.getD i 0 =
        if w.nr_uses.getD i 0 > 0 then
          max w.min_weight
            (w.wheel_parameter * (w.scores.getD i 0 / (w.nr_uses.getD i 0 : ℚ))
              + (1 - w.wheel_parameter) * w.weights.getD i 0)
        else w.min_weight) ∧
    (update_weights w).scores = List.replicate w.nr_functors 0 ∧
    (update_weights w).nr_uses = List.replicate w.nr_functors 0 ∧
    (0 < w.min_weight → ∀ i, i < w.nr_functors →
      w.min_weight ≤ (update_weights w).weights.getD i 0) ∧
    (0 < w.min_weight → 0 < w.nr_functors → 0 < (update_weights w).weights.sum) := by
  have hmax : ∀ q : ℚ, (if q < w.min_weight then w.min_weight else q) = max w.min_weight q := by
    intro q
    rcases lt_or_le q w.min_weight with h | h
    · rw [if_pos h, max_eq_left h.le]
    · rw [if_neg (not_lt.mpr h), max_eq_right h]
  have hEntry : ∀ i, i < w.nr_functors →
      (update_weights w).weights.getD i 0 =
        if w.nr_uses.getD i 0 > 0 then
          max w.min_weight
            (w.wheel_parameter * (w.scores.getD i 0 / (w.nr_uses.getD i 0 : ℚ))
              + (1 - w.wheel_parameter) * w.weights.getD i 0)
        else w.min_weight := by
    intro i hi
    show ((List.range w.nr_functors).map _).getD i 0 = _
    rw [map_range_getD _ _ _ _ hi]
    by_cases hu : w.nr_uses.getD i 0 > 0
    · rw [if_pos hu, if_pos hu, hmax]
    · rw [if_neg hu, if_neg hu]
  have hGe : 0 < w.min_weight → ∀ i, i < w.nr_functors →
      w.min_weight ≤ (update_weights w).weights.getD i 0 := by
    intro _ i hi
    rw [hEntry i hi]
    by_cases hu : w.nr_uses.getD i 0 > 0
    · rw [if_pos hu]; exact le_max_left _ _
    · rw [if_neg hu]
  refine ⟨hEntry, rfl, rfl, hGe, ?_⟩
  intro hmin hfun
  apply List.sum_pos
  · intro x hx
    obtain ⟨i, hi, hfx⟩ := List.mem_map.mp hx
    rw [← hfx]
    by_cases hu : w.nr_uses.getD i 0 > 0
    · rw [if_pos hu, hmax]
      exact lt_of_lt_of_le hmin (le_max_left _ _)
    · rw [if_neg hu]
      exact hmin
  · intro hnil
    have hlen := congrArg List.length hnil
    simp only [update_weights, List.length_map, List.length_range, List.length_nil] at hlen
    omega

/-- Preparatory fact for C9: one driver acceptance step never increases the
stored best driving time. -/
theorem best_update_le (b r : SolKPI) : (best_update b r).driving_time ≤ b.driving_time := by
  unfold best_update
  split
  · rename_i h; exact h.1.le
  · exact le_refl _

/-- Preparatory fact for C9: one driver acceptance step preserves
feasibility of the stored best solution. -/
theorem best_update_feasible (b r : SolKPI) (hb : b.is_feasible = true) :
    (best_update b r).is_feasible = true := by
  unfold best_update
  split
  · rename_i h; exact h.2
  · exact hb

/-- C9: across the main loop, the best solution is replaced only by a
feasible running solution with strictly smaller driving time; consequently
the best driving time never increases over any sequence of iterations, a
replacement always installs a feasible solution, and once the best solution
is feasible it stays feasible for the rest of the run. -/
theorem best_solution_monotone (runnings : List SolKPI) (b0 : SolKPI) :
    (∀ b r : SolKPI, best_update b r ≠ b →
      r.is_feasible = true ∧ r.driving_time < b.driving_time) ∧
    (∀ b r : SolKPI, best_update b r ≠ b → (best_update b r).is_feasible = true) ∧
    (runnings.foldl best_update b0).driving_time ≤ b0.driving_time ∧
    (b0.is_feasible = true → (runnings.foldl best_update b0).is_feasible = true) := by
  have hstep : ∀ b r : SolKPI, best_update b r ≠ b →
      r.is_feasible = true ∧ r.driving_time < b.driving_time := by
    intro b r h
    unfold best_update at h
    by_cases hc : r.driving_time < b.driving_time ∧ r.is_feasible = true
    · exact ⟨hc.2, hc.1⟩
    · rw [if_neg hc] at h
      exact absurd rfl h
  have hfold_le : ∀ (l : List SolKPI) (b : SolKPI),
      (l.foldl best_update b).driving_time ≤ b.driving_time := by
    intro l
    induction l with
    | nil => intro b; exact le_refl _
    | cons r rest ih =>
        intro b
        exact (ih (best_update b r)).trans (best_update_le b r)
  have hfold_feas : ∀ (l : List SolKPI) (b : SolKPI), b.is_feasible = true →
      (l.foldl best_update b).is_feasible = true := by
    intro l
    induction l with
    | nil => intro b hb; exact hb
    | cons r rest ih =>
        intro b hb
        exact ih (best_update b r) (best_update_feasible b r hb)
  refine ⟨hstep, ?_, hfold_le runnings b0, hfold_feas runnings b0⟩
  intro b r h
  unfold best_update
  by_cases hc : r.driving_time < b.driving_time ∧ r.is_feasible = true
  · rw [if_pos hc]; exact hc.2
  · exact absurd (by unfold best_update; rw [if_neg hc]) h

/-- The wheel selection scan finds a functor whenever the drawn value does
not exceed the accumulated weight of the scanned functors. -/
theorem rw_find_some (weights : List ℚ) (rnd : ℚ) :
    ∀ (idxs : List ℕ) (cur : ℚ), idxs ≠ [] →
      rnd ≤ cur + (idxs.map (fun i => weights.getD i 0)).sum →
      ∃ i ∈ idxs, rw_find weights rnd idxs cur = some i := by
  intro idxs
  induction idxs with
  | nil => intro cur h _; exact absurd rfl h
  | cons i rest ih =>
      intro cur _ hsum
      by_cases hle : rnd ≤ cur + weights.getD i 0
      · refine ⟨i, List.mem_cons_self i rest, ?_⟩
        simp only [rw_find]
        rw [if_pos hle]
      · have hne : rest ≠ [] := by
          intro hr
          subst hr
          simp only [List.map_cons, List.map_nil, List.sum_cons, List.sum_nil] at hsum
          exact hle (by linarith)
        have hsum' : rnd ≤ (cur + weights.getD i 0) +
            (rest.map (fun j => weights.getD j 0)).sum := by
          simp only [List.map_cons, List.sum_cons] at hsum
          linarith
        obtain ⟨j, hj, hfind⟩ := ih (cur + weights.getD i 0) hne hsum'
        refine ⟨j, List.mem_cons_of_mem i hj, ?_⟩
        simp only [rw_find]
        rw [if_neg hle]
        exact hfind

/-- C10: whenever every wheel weight is at least a positive `min_weight`,
`RouletteWheel::get_random_functor_id` selects some functor id below
`nr_functors` and records it as `last_functor_id`; the trailing
no-functor-selected exception branch is unreachable because the drawn value
`u * (sum of weights)` never exceeds the final accumulated weight sum. -/
theorem get_random_functor_id_total (w : RouletteWheel) (u : ℚ)
    (hlen : w.weights.length = w.nr_functors)
    (hfun : 0 < w.nr_functors)
    (hmin : 0 < w.min_weight)
    (hw : ∀ x ∈ w.weights, w.min_weight ≤ x)
    (hu0 : 0 ≤ u) (hu1 : u < 1) :
    ∃ i, i < w.nr_functors ∧
      get_random_functor_id w u = some (i, { w with last_functor_id := i }) := by
  have hsum_eq : ((List.range w.nr_functors).map (fun i => w.weights.getD i 0)).sum
      = w.weights.sum := by
    rw [← hlen, map_getD_range]
  have hne_w : w.weights ≠ [] := by
    intro h
    rw [h] at hlen
    simp at hlen
    omega
  have hsum_pos : 0 < w.weights.sum :=
    List.sum_pos _ (fun x hx => lt_of_lt_of_le hmin (hw x hx)) hne_w
  have hrnd : u * w.weights.sum ≤
      0 + ((List.range w.nr_functors).map (fun i => w.weights.getD i 0)).sum := by
    rw [zero_add, hsum_eq]
    nlinarith
  have hne : List.range w.nr_functors ≠ [] := by
    intro h
    have := congrArg List.length h
    simp at this
    omega
  obtain ⟨i, hmem, hfind⟩ :=
    rw_find_some w.weights (u * w.weights.sum) (List.range w.nr_functors) 0 hne hrnd
  exact ⟨i, List.mem_range.mp hmem, by simp [get_random_functor_id, hfind]⟩

/-- Concrete instantiation of the C1 characterization: re-evaluating route 0
of the example solution at position 0 completes, and the resulting loads and
load levels are exactly the freshly recomputed ones. -/
theorem evaluate_change_characterization_witness :
    exChanged.loads = (update_load_levels exSol.loads exSol.load_levels
      (exSol.solution_representation.getD 0 []) 0 exData.demand exData.load_bucket_size).1 ∧
    exChanged.load_levels = (update_load_levels exSol.loads exSol.load_levels
      (exSol.solution_representation.getD 0 []) 0 exData.demand exData.load_bucket_size).2 := by
  have h := (evaluate_change_characterization exData 0 0 1 1 exSol).2.2 exChanged (by with_unfolding_all rfl)
  exact ⟨h.1, h.2.1⟩

/-- Concrete instantiation of the C2 probe properties: on the one-customer
instance whose demand exceeds the pseudo-capacity headroom, the probe at
position 0 throws, the carried state has the pre-call route contents, and the
probing loop stops without touching position 1. -/
theorem insertion_probe_reverts_and_breaks_witness :
    exProbeErr.solution_representation = exSolBig.solution_representation ∧
    gbi_route exDataBig 1 1 0 0 [0, 1] exSolBig (doubleMax, 0, 0) =
      (exProbeErr, (doubleMax, 0, 0)) := by
  have hp : evaluate_insertion_position exDataBig 1 1 0 0 0 exSolBig = .error exProbeErr := by
    with_unfolding_all rfl
  have h := insertion_probe_reverts_and_breaks exDataBig 1 1 0 0
  exact ⟨(h.1 0 exSolBig (Nat.zero_le _)).1 exProbeErr hp,
    h.2 0 [1] exSolBig exProbeErr (doubleMax, 0, 0) hp⟩

set_option maxRecDepth 8000 in
/-- Concrete instantiation of C3: destroying both customers of the example
solution and repairing with basic greedy insertion yields a solution whose
customers are again exactly `{0, 1}`. -/
theorem destroy_repair_permutation_witness :
    exRepaired.solution_representation.flatten.Perm (List.range 2) := by
  have h := destroy_repair_permutation exData 1 1 1 exRng 0 exSol 2 exDestroyed.1 exRepaired
  refine h.2.2 ?_ ?_ ?_
  · with_unfolding_all decide
  · with_unfolding_all decide
  · with_unfolding_all rfl

/-- Concrete instantiation of the amended C7: the bucket of load 2 with
bucket size 1 is `floor(1.7) = 1`. -/
theorem get_load_bucket_floor_witness :
    get_load_bucket 2 1 = ⌊((2 : ℚ) - 3/10) / 1⌋ :=
  get_load_bucket_floor_of_ge 2 1 (by norm_num) (by norm_num)

/-- Concrete instantiation of C8 on the example wheel. -/
theorem update_weights_spec_witness :
    (update_weights exWheel).weights.getD 0 0 =
      (if exWheel.nr_uses.getD 0 0 > 0 then
        max exWheel.min_weight
          (exWheel.wheel_parameter * (exWheel.scores.getD 0 0 / (exWheel.nr_uses.getD 0 0 : ℚ))
            + (1 - exWheel.wheel_parameter) * exWheel.weights.getD 0 0)
      else exWheel.min_weight) ∧
    exWheel.min_weight ≤ (update_weights exWheel).weights.getD 0 0 ∧
    0 < (update_weights exWheel).weights.sum := by
  have h := update_weights_spec exWheel
  exact ⟨h.1 0 (by decide), h.2.2.2.1 (by decide) 0 (by decide),
    h.2.2.2.2 (by decide) (by decide)⟩

/-- Concrete instantiation of C9: a feasible running solution with smaller
driving time replaces the stored best, and the best driving time does not
increase. -/
theorem best_solution_monotone_witness :
    ((⟨5, true⟩ : SolKPI).is_feasible = true ∧
      (⟨5, true⟩ : SolKPI).driving_time < (⟨10, false⟩ : SolKPI).driving_time) ∧
    (best_update ⟨10, false⟩ ⟨5, true⟩).is_feasible = true ∧
    (List.foldl best_update ⟨10, false⟩ [⟨5, true⟩]).driving_time ≤
      (⟨10, false⟩ : SolKPI).driving_time := by
  have h := best_solution_monotone [⟨5, true⟩] (⟨10, false⟩ : SolKPI)
  exact ⟨h.1 ⟨10, false⟩ ⟨5, true⟩ (by decide), h.2.1 ⟨10, false⟩ ⟨5, true⟩ (by decide),
    h.2.2.1⟩

/-- Concrete instantiation of C10 on the example wheel with a draw of 1/2. -/
theorem get_random_functor_id_total_witness :
    ∃ i, i < exWheel.nr_functors ∧
      get_random_functor_id exWheel (1/2) =
        some (i, { exWheel with last_functor_id := i }) :=
  get_random_functor_id_total exWheel (1/2) (by decide) (by decide) (by decide)
    (by decide) (by norm_num) (by norm_num)
